import Mathlib

/-!
Verification of the LLM response-extraction, validation, notification and
web-scraping logic of the wutzup-swift Firebase functions backend.

Python strings are embedded as `List Char`.  Python library calls that are
external to the repository (the strict JSON parser `json.loads`, the FCM
`messaging.send` call, the firestore lookup, the HTTP fetch and the
BeautifulSoup text extraction) are modelled as explicit parameters
(functions or environment records), so every theorem quantifies over their
behaviour.  All functions of the repository itself are translated
clause-by-clause from the Python source.
-/

/-- Whitespace test matching Python `str.strip()` on the ASCII whitespace
characters (space, tab, newline, carriage return, vertical tab, form feed). -/
def isPySpace (c : Char) : Bool :=
  c = ' ' || c = '\t' || c = '\n' || c = '\r' || c = '\x0b' || c = '\x0c'

/-- Double-quote test for Python `str.strip('"')`. -/
def isQuote (c : Char) : Bool :=
  c = '"'

/-- Python `s.strip(chars)`: drop the characters satisfying `p` from both
ends of the string. -/
def strip2 (p : Char → Bool) (l : List Char) : List Char :=
  ((l.dropWhile p).reverse.dropWhile p).reverse

/-- Python `s.strip()` (restricted to the ASCII whitespace characters). -/
def pyStrip (l : List Char) : List Char :=
  strip2 isPySpace l

/-- Python `s.strip('"')`. -/
def stripQuotes (l : List Char) : List Char :=
  strip2 isQuote l

/-- Boolean test that `needle` is a prefix of `hay` (decidable-equality
version of `List.isPrefixOf`, used by the embedding of `str.find`). -/
def leadMatch : List Char → List Char → Bool
  | [], _ => true
  | _ :: _, [] => false
  | a :: as, b :: bs => if a = b then leadMatch as bs else false

/-- Index of the first occurrence of `needle` in `hay` (`none` if absent);
this is Python `hay.find(needle)` with `-1` mapped to `none`. -/
def subFind (needle : List Char) : List Char → Option Nat
  | [] => if needle = [] then some 0 else none
  | c :: rest =>
    if leadMatch needle (c :: rest) then some 0
    else (subFind needle rest).map (· + 1)

/-- Python `needle in hay` for strings. -/
def containsSub (hay needle : List Char) : Bool :=
  (subFind needle hay).isSome

/-- Python `hay.find(needle, start)`, returning `-1` when absent. -/
def findFrom (hay needle : List Char) (start : Nat) : Int :=
  match subFind needle (hay.drop start) with
  | some k => ((start + k : Nat) : Int)
  | none => -1

/-- Python slice `l[start:stop]` with a non-negative `start` and a possibly
negative `stop` (a negative `stop` counts from the end of the string). -/
def pySlice (l : List Char) (start : Nat) (stop : Int) : List Char :=
  let stopN : Nat := if stop < 0 then ((l.length : Int) + stop).toNat
                     else min stop.toNat l.length
  (l.drop start).take (stopN - start)

/-- The characters of the fence marker `"```json"`. -/
def tickJson : List Char := "```json".data

/-- The characters of the bare fence marker `"```"`. -/
def tick3 : List Char := "```".data

/-- Fence-stripping step of `extract_json_from_response`
(`utils/ai_utils.py`, lines 65-73): if `"```json"` occurs, slice from just
after it up to the next `"```"` and strip; otherwise, if `"```"` occurs,
slice from just after it up to the next `"```"` and strip; otherwise return
the text unchanged. -/
def stripFences (text : List Char) : List Char :=
  match subFind tickJson text with
  | some i => pyStrip (pySlice text (i + 7) (findFrom text tick3 (i + 7)))
  | none =>
    match subFind tick3 text with
    | some i => pyStrip (pySlice text (i + 3) (findFrom text tick3 (i + 3)))
    | none => text

/-- The `try: return json.loads(...) except JSONDecodeError: raise
ValueError(...)` tail of `extract_json_from_response`, with the strict JSON
parser `json.loads` passed in as `loads`. -/
def jsonAttempt {α : Type} (loads : List Char → Except (List Char) α)
    (text : List Char) : Except (List Char) α :=
  match loads text with
  | .ok v => .ok v
  | .error e => .error ("Invalid JSON response: ".data ++ e)

/-- Embedding of `extract_json_from_response` (`utils/ai_utils.py`,
lines 53-79), parameterised by the strict JSON parser `loads`. -/
def extract_json_from_response {α : Type}
    (loads : List Char → Except (List Char) α)
    (response_text : List Char) : Except (List Char) α :=
  jsonAttempt loads (stripFences response_text)

/-- Python `s.lower()` (ASCII case folding suffices for the inputs of the
handlers). -/
def pyLower (l : List Char) : List Char :=
  l.map Char.toLower

/-- Python `s.split("\n")`: split on every newline, keeping empty pieces. -/
def splitNl : List Char → List (List Char)
  | [] => [[]]
  | c :: rest =>
    match splitNl rest with
    | [] => [[]]
    | l :: ls => if c = '\n' then [] :: l :: ls else (c :: l) :: ls

/-- Python `line.split(":", 1)[-1]`: everything after the first colon, or
the whole line when it has no colon. -/
def splitColonTail (line : List Char) : List Char :=
  match subFind [':'] line with
  | some i => line.drop (i + 1)
  | none => line

/-- Value extraction of the fallback parser in
`generate_response_suggestions` (`handlers/response_handlers.py`,
lines 111 and 113): `line.split(":", 1)[-1].strip().strip('"')`. -/
def extractVal (line : List Char) : List Char :=
  stripQuotes (pyStrip (splitColonTail line))

/-- The key `"positive"` searched for by the fallback parser. -/
def posKey : List Char := "positive".data

/-- The key `"negative"` searched for by the fallback parser. -/
def negKey : List Char := "negative".data

/-- The `for line in lines` loop of the fallback parser
(`handlers/response_handlers.py`, lines 109-113), accumulating the
`positive` and `negative` strings. -/
def fallbackLoop : List (List Char) → List Char → List Char → List Char × List Char
  | [], pos, neg => (pos, neg)
  | line :: rest, pos, neg =>
    if containsSub (pyLower line) posKey && pos.isEmpty then
      fallbackLoop rest (extractVal line) neg
    else if containsSub (pyLower line) negKey && neg.isEmpty then
      fallbackLoop rest pos (extractVal line)
    else
      fallbackLoop rest pos neg

/-- The whole fallback branch of `generate_response_suggestions`
(`handlers/response_handlers.py`, lines 104-129): split the stripped
response into lines, run the key-extraction loop, and answer 200 with the
two fields when both are non-empty, else 500 with no fields. -/
def suggestionsFallback (response_text : List Char) :
    Nat × Option (List Char × List Char) :=
  let lines := splitNl (pyStrip response_text)
  let pn := fallbackLoop lines [] []
  if !pn.1.isEmpty && !pn.2.isEmpty then (200, some pn)
  else (500, none)

/-- Values that can appear in a parsed JSON request body where the handler
expects scalar text: Python strings, lists, and `None` (also standing for
an absent key, since `dict.get` returns `None` then). -/
inductive PyVal where
  | str (s : List Char)
  | list (l : List PyVal)
  | none

/-- Python truthiness of a `PyVal`: empty strings, empty lists and `None`
are falsy. -/
def pyTruthy : PyVal → Bool
  | .str s => !s.isEmpty
  | .list l => !l.isEmpty
  | .none => false

/-- Python `isinstance(v, list)`. -/
def PyVal.isList : PyVal → Bool
  | .list _ => true
  | _ => false

mutual

/-- Python `repr` on the modelled values (string escaping inside `repr` of
a string is not modelled; no claim depends on it). -/
def pyRepr : PyVal → List Char
  | .str s => '\x27' :: (s ++ ['\x27'])
  | .none => "None".data
  | .list l => '[' :: (pyReprItems l ++ [']'])

/-- Comma-separated `repr`s of the items of a list, as Python prints it. -/
def pyReprItems : List PyVal → List Char
  | [] => []
  | [v] => pyRepr v
  | v :: w :: rest => pyRepr v ++ ", ".data ++ pyReprItems (w :: rest)

end

/-- Python `str(v)`. -/
def pyStr : PyVal → List Char
  | .str s => s
  | v => pyRepr v

/-- Scalar coercion used by `translate_text` (`handlers/http_handlers.py`,
lines 124, 129, 132): `str(raw).strip() if raw and not isinstance(raw,
list) else ""`. -/
def coerceScalar (raw : PyVal) : List Char :=
  if pyTruthy raw && !raw.isList then pyStrip (pyStr raw) else []

/-- Coercion of the `text` field of `translate_text`
(`handlers/http_handlers.py`, lines 123-126): the scalar coercion,
overridden for lists by `" ".join(str(item) for item in raw if item)`. -/
def coerceTextField (raw : PyVal) : List Char :=
  match raw with
  | .list l => List.intercalate [' '] ((l.filter pyTruthy).map pyStr)
  | v => coerceScalar v

/-- The 400 error body of `translate_text` for a missing required field
(`handlers/http_handlers.py`, line 136). -/
def translateErrBody : List Char :=
  "Both \x27text\x27 and \x27target_language\x27 are required".data

/-- Required-field validation of `translate_text`
(`handlers/http_handlers.py`, lines 122-139): coerce `text` and
`target_language` and fail with status 400 when either is empty. -/
def translate_text_validate (text_raw target_raw : PyVal) :
    Except (Nat × List Char) (List Char × List Char) :=
  let text := coerceTextField text_raw
  let target := coerceScalar target_raw
  if text.isEmpty || target.isEmpty then .error (400, translateErrBody)
  else .ok (text, target)

/-- An HTTP response as far as the claims observe it: a status code and a
body. -/
structure HttpResp where
  status : Nat
  body : List Char
deriving DecidableEq

/-- The `translate_text` handler after its body was parsed
(`handlers/http_handlers.py`, lines 122-183): validation followed by the
rest of the handler (prompt building, the LLM call and response shaping,
lines 141-183), which is abstracted as the continuation `k` on the
validated `(text, target_language)` pair. -/
def translate_text_run (k : List Char × List Char → HttpResp)
    (text_raw target_raw : PyVal) : HttpResp :=
  match translate_text_validate text_raw target_raw with
  | .error (s, m) => ⟨s, m⟩
  | .ok v => k v

/-- The FCM message built by `send_message_notification`
(`utils/notification_utils.py`, lines 57-89), as far as the claims observe
it: title, body (the preview), target token and the data payload ids. -/
structure FcmMessage where
  title : List Char
  body : List Char
  token : List Char
  conversationId : List Char
  messageId : List Char
deriving DecidableEq

/-- External world of `send_message_notification`: the firestore user
lookup (`none` = document does not exist; the inner option is the value of
the `fcmToken` field) and the FCM `messaging.send` call, which can fail
with a provider error. -/
structure NotifEnv where
  userDoc : List Char → Option (Option (List Char))
  send : FcmMessage → Except (List Char) (List Char)

/-- Preview truncation of `send_message_notification`
(`utils/notification_utils.py`, lines 52-54):
`content[:100]` plus `"..."` when the content is longer than the configured
`NOTIFICATION_PREVIEW_LENGTH = 100`. -/
def notifPreview (content : List Char) : List Char :=
  if content.length > 100 then content.take 100 ++ "...".data
  else content.take 100

/-- Embedding of `send_message_notification`
(`utils/notification_utils.py`, lines 35-98).  The first component is the
returned boolean; the second lists the `messaging.send` calls performed
(empty = no push-send call).  The `except` wrapper of the source is the
`.error` branch of `env.send`. -/
def send_message_notification (env : NotifEnv)
    (recipient_id sender_name message_content conversation_id message_id :
      List Char)
    (is_group : Bool := false) : Bool × List FcmMessage :=
  match env.userDoc recipient_id with
  | none => (false, [])
  | some doc =>
    match doc with
    | none => (false, [])
    | some fcm_token =>
      if fcm_token.isEmpty then (false, [])
      else
        let msg : FcmMessage :=
          ⟨"Wutzup from ".data ++ sender_name, notifPreview message_content,
            fcm_token, conversation_id, message_id⟩
        match env.send msg with
        | .ok _ => (true, [msg])
        | .error _ => (false, [msg])

/-- An HTTP response as `requests.get` returns it: status code and body
text. -/
structure WebResp where
  status : Nat
  text : List Char

/-- External world of `scrape_webpage`: the HTTP fetch (`requests.get`,
which can raise, modelled by `Except`) and the BeautifulSoup pipeline
(parse, `decompose` of script/style/nav/footer/header,
`get_text(separator=' ', strip=True)`), abstracted as `soupText`. -/
structure WebEnv where
  fetch : List Char → Nat → Except (List Char) WebResp
  soupText : List Char → Except (List Char) (List Char)

/-- Python `text.splitlines()` restricted to `'\n'` terminators: no piece
for a trailing newline, empty list for the empty string. -/
def splitlines : List Char → List (List Char)
  | [] => []
  | c :: rest =>
    if c = '\n' then [] :: splitlines rest
    else
      match splitlines rest with
      | [] => [[c]]
      | l :: ls => (c :: l) :: ls

/-- Python `line.split("  ")`: split on each non-overlapping two-space
separator, keeping empty pieces. -/
def splitTwoSpace : List Char → List (List Char)
  | [] => [[]]
  | ' ' :: ' ' :: rest => [] :: splitTwoSpace rest
  | c :: rest =>
    match splitTwoSpace rest with
    | [] => [[c]]
    | l :: ls => (c :: l) :: ls

/-- Whitespace cleanup of `scrape_webpage` (`utils/web_utils.py`,
lines 117-120): strip each line, split each on double spaces, strip the
phrases, and join the non-empty chunks with single spaces. -/
def cleanWhitespace (text : List Char) : List Char :=
  let lines := (splitlines text).map pyStrip
  let chunks := (lines.map splitTwoSpace).flatten.map pyStrip
  List.intercalate [' '] (chunks.filter (fun c => !c.isEmpty))

/-- Embedding of `scrape_webpage` (`utils/web_utils.py`, lines 85-126):
fetch, `raise_for_status` (4xx/5xx), soup text extraction and whitespace
cleanup; every failure is caught and yields the empty string. -/
def scrape_webpage (env : WebEnv) (url : List Char) (timeout : Nat) :
    List Char :=
  match env.fetch url timeout with
  | .error _ => []
  | .ok resp =>
    if 400 ≤ resp.status then []
    else
      match env.soupText resp.text with
      | .error _ => []
      | .ok t => cleanWhitespace t

/-- A DuckDuckGo search result as `search_duckduckgo` returns it. -/
structure SearchResult where
  title : List Char
  url : List Char
  snippet : List Char
deriving DecidableEq

/-- A scraped source as `conduct_research` accumulates it. -/
structure ScrapedItem where
  title : List Char
  url : List Char
  content : List Char
deriving DecidableEq

/-- The scraping loop body of `conduct_research`
(`handlers/research_handlers.py`, lines 112-124): scrape each result,
skip it when the content is empty, and otherwise keep the content
truncated to `maxLen = Config.MAX_SCRAPED_CONTENT_LENGTH` characters. -/
def gatherLoop (env : WebEnv) (maxLen timeout : Nat) :
    List SearchResult → List ScrapedItem
  | [] => []
  | r :: rest =>
    let content := scrape_webpage env r.url timeout
    if content.isEmpty then gatherLoop env maxLen timeout rest
    else ⟨r.title, r.url, content.take maxLen⟩ :: gatherLoop env maxLen timeout rest

/-- Step 2 of `conduct_research` (`handlers/research_handlers.py`,
line 112): the scraping loop over the top three search results. -/
def gatherScraped (env : WebEnv) (maxLen timeout : Nat)
    (results : List SearchResult) : List ScrapedItem :=
  gatherLoop env maxLen timeout (results.take 3)

/-- A toy strict-JSON parser used to instantiate the abstract `loads`
parameter in concrete witnesses: it accepts exactly the serialization of
the empty object. -/
def loadsEmptyObj : List Char → Except (List Char) Nat :=
  fun t => if t = "\x7b\x7d".data then .ok 1 else .error "Expecting value".data

/-- Witness world for the notification claims: no user document exists and
every send succeeds. -/
def notifEnvNoUser : NotifEnv :=
  ⟨fun _ => none, fun _ => .ok "msg-id".data⟩

/-- Witness world for the scraping claims: every fetch fails with a
network error. -/
def webEnvUnreachable : WebEnv :=
  ⟨fun _ _ => .error "ConnectionError".data, fun t => .ok t⟩

/-- Witness world for the scraping claims: the fetch succeeds and the soup
text of every page is the five-character string `hello`. -/
def webEnvHello : WebEnv :=
  ⟨fun _ _ => .ok ⟨200, "hello".data⟩, fun _ => .ok "hello".data⟩

/-! ### Generic lemmas about the string primitives -/

theorem length_dropWhile_le (p : Char → Bool) (l : List Char) :
    (l.dropWhile p).length ≤ l.length := by
  induction l with
  | nil => simp [List.dropWhile]
  | cons c rest ih =>
    by_cases h : p c
    · simp [List.dropWhile, h]
      omega
    · simp [List.dropWhile, h]

theorem dropWhile_eq_or_lt (p : Char → Bool) (l : List Char) :
    l.dropWhile p = l ∨ (l.dropWhile p).length < l.length := by
  cases l with
  | nil => left; rfl
  | cons c rest =>
    by_cases h : p c
    · right
      simp [List.dropWhile, h]
      have := length_dropWhile_le p rest
      omega
    · left
      simp [List.dropWhile, h]

theorem dropWhile_cons_false (p : Char → Bool) (c : Char) (l : List Char)
    (h : p c = false) : (c :: l).dropWhile p = c :: l := by
  simp [List.dropWhile, h]

theorem strip2_fix_left (p : Char → Bool) (l : List Char)
    (h : strip2 p l = l) : l.dropWhile p = l := by
  rcases dropWhile_eq_or_lt p l with h1 | h1
  · exact h1
  · exfalso
    have h2 : (strip2 p l).length ≤ (l.dropWhile p).length := by
      unfold strip2
      have := length_dropWhile_le p (l.dropWhile p).reverse
      simpa using this
    rw [h] at h2
    omega

theorem strip2_fix_right (p : Char → Bool) (l : List Char)
    (h : strip2 p l = l) : l.reverse.dropWhile p = l.reverse := by
  have hl := strip2_fix_left p l h
  unfold strip2 at h
  rw [hl] at h
  have : l.reverse.dropWhile p = l.reverse.dropWhile p := rfl
  calc l.reverse.dropWhile p
      = (l.reverse.dropWhile p).reverse.reverse := by simp
    _ = l.reverse := by rw [h]

theorem head_not_of_dropWhile_fix (p : Char → Bool) (c : Char) (l : List Char)
    (h : (c :: l).dropWhile p = c :: l) : p c = false := by
  by_cases hc : p c
  · exfalso
    have h2 : (c :: l).dropWhile p = l.dropWhile p := by
      simp [List.dropWhile, hc]
    rw [h2] at h
    have := length_dropWhile_le p l
    have h3 : (l.dropWhile p).length = l.length + 1 := by rw [h]; rfl
    omega
  · simpa using hc

theorem dropWhile_append_all (p : Char → Bool) (a r : List Char)
    (h : ∀ c ∈ a, p c = true) : (a ++ r).dropWhile p = r.dropWhile p := by
  induction a with
  | nil => rfl
  | cons c a' ih =>
    have hc : p c = true := h c (List.mem_cons_self c a')
    have h' : ∀ c ∈ a', p c = true := fun x hx => h x (List.mem_cons_of_mem c hx)
    simp [List.dropWhile, hc, ih h']

theorem dropWhile_all (p : Char → Bool) (a : List Char)
    (h : ∀ c ∈ a, p c = true) : a.dropWhile p = [] := by
  have := dropWhile_append_all p a [] h
  simpa using this

theorem strip2_cons_drop (p : Char → Bool) (c : Char) (l : List Char)
    (h : p c = true) : strip2 p (c :: l) = strip2 p l := by
  unfold strip2
  simp [List.dropWhile, h]

theorem strip2_sandwich (p : Char → Bool) (a s b : List Char)
    (ha : ∀ c ∈ a, p c = true) (hb : ∀ c ∈ b, p c = true)
    (hs : strip2 p s = s) : strip2 p (a ++ s ++ b) = s := by
  have hstep : (a ++ s ++ b).dropWhile p = (s ++ b).dropWhile p := by
    rw [List.append_assoc]
    exact dropWhile_append_all p a (s ++ b) ha
  cases s with
  | nil =>
    unfold strip2
    rw [hstep]
    simp [dropWhile_all p b hb]
  | cons c s' =>
    have hfixl := strip2_fix_left p (c :: s') hs
    have hfixr := strip2_fix_right p (c :: s') hs
    have hc : p c = false := head_not_of_dropWhile_fix p c s' hfixl
    unfold strip2
    rw [hstep]
    have h1 : ((c :: s') ++ b).dropWhile p = (c :: s') ++ b := by
      simp only [List.cons_append]
      exact dropWhile_cons_false p c (s' ++ b) hc
    rw [h1]
    have h2 : ((c :: s') ++ b).reverse = b.reverse ++ (c :: s').reverse := by
      simp
    rw [h2]
    have h3 : (b.reverse ++ (c :: s').reverse).dropWhile p
        = (c :: s').reverse.dropWhile p := by
      refine dropWhile_append_all p b.reverse _ ?_
      intro x hx
      exact hb x (List.mem_reverse.mp hx)
    rw [h3, hfixr]
    simp

theorem strip2_wrap (p : Char → Bool) (d : Char) (v : List Char)
    (hd : p d = true) (hv : strip2 p v = v) (hv0 : v ≠ []) :
    strip2 p (d :: (v ++ [d])) = v := by
  cases v with
  | nil => exact absurd rfl hv0
  | cons c v' =>
    have hfixl := strip2_fix_left p (c :: v') hv
    have hfixr := strip2_fix_right p (c :: v') hv
    have hc : p c = false := head_not_of_dropWhile_fix p c v' hfixl
    unfold strip2
    have h1 : (d :: ((c :: v') ++ [d])).dropWhile p
        = ((c :: v') ++ [d]).dropWhile p := by
      simp [List.dropWhile, hd]
    rw [h1]
    have h2 : ((c :: v') ++ [d]).dropWhile p = (c :: v') ++ [d] := by
      simp only [List.cons_append]
      exact dropWhile_cons_false p c (v' ++ [d]) hc
    rw [h2]
    have h3 : ((c :: v') ++ [d]).reverse = d :: (c :: v').reverse := by
      simp
    rw [h3]
    have h4 : (d :: (c :: v').reverse).dropWhile p
        = (c :: v').reverse.dropWhile p := by
      simp [List.dropWhile, hd]
    rw [h4, hfixr]
    simp

theorem strip2_fix_cons_concat (p : Char → Bool) (c d : Char) (m : List Char)
    (hc : p c = false) (hd : p d = false) :
    strip2 p (c :: (m ++ [d])) = c :: (m ++ [d]) := by
  unfold strip2
  rw [dropWhile_cons_false p c (m ++ [d]) hc]
  have h2 : (c :: (m ++ [d])).reverse = d :: (m.reverse ++ [c]) := by
    simp
  rw [h2, dropWhile_cons_false p d (m.reverse ++ [c]) hd, ← h2]
  simp

theorem leadMatch_nil_true (h₀ : List Char) : leadMatch [] h₀ = true := by
  cases h₀ <;> rfl

theorem leadMatch_nil_right (n : List Char) (h : leadMatch n [] = true) :
    n = [] := by
  cases n with
  | nil => rfl
  | cons a as => simp [leadMatch] at h

theorem leadMatch_append_self (p r : List Char) :
    leadMatch p (p ++ r) = true := by
  induction p with
  | nil => exact leadMatch_nil_true r
  | cons a as ih => simp [leadMatch, ih]

theorem leadMatch_trans (p q l : List Char) (h1 : leadMatch p q = true)
    (h2 : leadMatch q l = true) : leadMatch p l = true := by
  induction p generalizing q l with
  | nil => exact leadMatch_nil_true l
  | cons a as ih =>
    cases q with
    | nil => simp [leadMatch] at h1
    | cons b bs =>
      simp only [leadMatch] at h1
      by_cases hab : a = b
      · subst hab
        rw [if_pos rfl] at h1
        cases l with
        | nil => simp [leadMatch] at h2
        | cons c cs =>
          simp only [leadMatch] at h2
          by_cases hbc : a = c
          · subst hbc
            rw [if_pos rfl] at h2
            simp only [leadMatch, if_pos rfl]
            exact ih bs cs h1 h2
          · rw [if_neg hbc] at h2
            exact absurd h2 (by simp)
      · rw [if_neg hab] at h1
        exact absurd h1 (by simp)

theorem leadMatch_of_append (p q r : List Char) (h : leadMatch p q = true) :
    leadMatch p (q ++ r) = true :=
  leadMatch_trans p q (q ++ r) h (leadMatch_append_self q r)

theorem subFind_of_lead (n h₀ : List Char) (h : leadMatch n h₀ = true) :
    subFind n h₀ = some 0 := by
  cases h₀ with
  | nil =>
    have := leadMatch_nil_right n h
    simp [subFind, this]
  | cons c rest => simp [subFind, h]

theorem subFind_cons_none (n : List Char) (c : Char) (rest : List Char)
    (h : subFind n (c :: rest) = none) :
    leadMatch n (c :: rest) = false ∧ subFind n rest = none := by
  by_cases hl : leadMatch n (c :: rest) = true
  · rw [subFind_of_lead n (c :: rest) hl] at h
    exact absurd h (by simp)
  · have hl' : leadMatch n (c :: rest) = false := by
      cases hx : leadMatch n (c :: rest)
      · rfl
      · exact absurd hx hl
    refine ⟨hl', ?_⟩
    simp only [subFind, hl', if_false, Bool.false_eq_true] at h
    cases hy : subFind n rest
    · rfl
    · rw [hy] at h
      simp at h

theorem subFind_none_of_lead (p q s : List Char)
    (hpq : leadMatch p q = true) (h : subFind p s = none) :
    subFind q s = none := by
  induction s with
  | nil =>
    simp only [subFind]
    by_cases hq : q = []
    · subst hq
      have hp : p = [] := leadMatch_nil_right p hpq
      subst hp
      simp [subFind] at h
    · simp [hq]
  | cons c rest ih =>
    obtain ⟨hl, hrest⟩ := subFind_cons_none p c rest h
    have hql : leadMatch q (c :: rest) = false := by
      cases hx : leadMatch q (c :: rest)
      · rfl
      · exact absurd (leadMatch_trans p q (c :: rest) hpq hx) (by simp [hl])
    simp [subFind, hql, ih hrest]

theorem subFind_append_ne (hc : Char) (n xs r : List Char)
    (h : ∀ c ∈ xs, c ≠ hc) :
    subFind (hc :: n) (xs ++ r) = (subFind (hc :: n) r).map (· + xs.length) := by
  induction xs with
  | nil =>
    simp only [List.nil_append, List.length_nil]
    cases subFind (hc :: n) r <;> simp
  | cons c xs' ih =>
    have hcne : c ≠ hc := h c (List.mem_cons_self c xs')
    have h' : ∀ x ∈ xs', x ≠ hc := fun x hx => h x (List.mem_cons_of_mem c hx)
    have hl : leadMatch (hc :: n) (c :: (xs' ++ r)) = false := by
      simp only [leadMatch]
      rw [if_neg (fun he => hcne he.symm)]
    have step : subFind (hc :: n) ((c :: xs') ++ r)
        = (subFind (hc :: n) (xs' ++ r)).map (· + 1) := by
      simp only [List.cons_append, subFind, List.append_eq, hl,
        Bool.false_eq_true, if_false]
    rw [step, ih h']
    cases subFind (hc :: n) r with
    | none => simp
    | some k =>
      simp only [Option.map_some', List.length_cons, Option.some.injEq]
      omega

theorem containsSub_of_lead (hay needle : List Char)
    (h : leadMatch needle hay = true) : containsSub hay needle = true := by
  rw [containsSub, subFind_of_lead needle hay h]
  rfl

theorem ne_tick_of_space (c : Char) (h : isPySpace c = true) : c ≠ '\x60' := by
  intro he
  subst he
  simp [isPySpace] at h

theorem tick3_eq : tick3 = '\x60' :: '\x60' :: '\x60' :: [] := rfl

theorem leadMatch_tick3_extend (b : List Char) (hb : ∀ c ∈ b, c ≠ '\x60')
    (hb0 : b ≠ []) (c : Char) (s' : List Char)
    (h : leadMatch tick3 (c :: s') = false) :
    leadMatch tick3 (c :: (s' ++ (b ++ tick3))) = false := by
  obtain ⟨b0, b', rfl⟩ : ∃ b0 b', b = b0 :: b' := by
    cases b with
    | nil => exact absurd rfl hb0
    | cons b0 b' => exact ⟨b0, b', rfl⟩
  have hb0ne : b0 ≠ '\x60' := hb b0 (List.mem_cons_self b0 b')
  rw [tick3_eq] at h ⊢
  match s' with
  | [] =>
    simp only [List.nil_append, List.cons_append, leadMatch]
    by_cases h1 : '\x60' = c
    · rw [if_pos h1, if_neg (fun he => hb0ne he.symm)]
    · rw [if_neg h1]
  | [a1] =>
    simp only [List.cons_append, List.singleton_append, leadMatch]
    by_cases h1 : '\x60' = c
    · rw [if_pos h1]
      by_cases h2 : '\x60' = a1
      · rw [if_pos h2, if_neg (fun he => hb0ne he.symm)]
      · rw [if_neg h2]
    · rw [if_neg h1]
  | a1 :: a2 :: rest =>
    simp only [leadMatch, List.cons_append] at h ⊢
    by_cases h1 : '\x60' = c
    · rw [if_pos h1] at h ⊢
      by_cases h2 : '\x60' = a1
      · rw [if_pos h2] at h ⊢
        by_cases h3 : '\x60' = a2
        · rw [if_pos h3] at h ⊢
          exact h
        · rw [if_neg h3]
      · rw [if_neg h2]
    · rw [if_neg h1]

theorem subFind_bridge (s b : List Char) (h : subFind tick3 s = none)
    (hb : ∀ c ∈ b, c ≠ '\x60') (hb0 : b ≠ []) :
    subFind tick3 (s ++ (b ++ tick3)) = some (s.length + b.length) := by
  induction s with
  | nil =>
    simp only [List.nil_append, List.length_nil, Nat.zero_add]
    have h1 : subFind tick3 (b ++ tick3)
        = (subFind tick3 tick3).map (· + b.length) := by
      rw [tick3_eq]
      exact subFind_append_ne '\x60' ['\x60', '\x60'] b tick3 hb
    rw [h1, subFind_of_lead tick3 tick3
      (by rw [← List.append_nil tick3]; exact leadMatch_append_self tick3 [])]
    simp
  | cons c s' ih =>
    obtain ⟨hl, hrest⟩ := subFind_cons_none tick3 c s' h
    have hl2 := leadMatch_tick3_extend b hb hb0 c s' hl
    have step : subFind tick3 ((c :: s') ++ (b ++ tick3))
        = (subFind tick3 (s' ++ (b ++ tick3))).map (· + 1) := by
      simp only [List.cons_append, subFind, List.append_eq, hl2,
        Bool.false_eq_true, if_false]
    rw [step, ih hrest]
    simp only [Option.map_some', List.length_cons, Option.some.injEq]
    omega

theorem tickJson_length : tickJson.length = 7 := rfl

theorem stripFences_fenced_json (a s b : List Char)
    (ha : ∀ c ∈ a, isPySpace c = true) (hb : ∀ c ∈ b, isPySpace c = true)
    (hb0 : b ≠ []) (hnf : subFind tick3 s = none) (hst : pyStrip s = s) :
    stripFences (tickJson ++ a ++ s ++ b ++ tick3) = s := by
  have ha' : ∀ c ∈ a, c ≠ '\x60' := fun c hc => ne_tick_of_space c (ha c hc)
  have hb' : ∀ c ∈ b, c ≠ '\x60' := fun c hc => ne_tick_of_space c (hb c hc)
  have htext : tickJson ++ a ++ s ++ b ++ tick3
      = tickJson ++ (a ++ (s ++ (b ++ tick3))) := by
    simp [List.append_assoc]
  rw [htext]
  have h1 : subFind tickJson (tickJson ++ (a ++ (s ++ (b ++ tick3)))) = some 0 :=
    subFind_of_lead _ _ (leadMatch_append_self tickJson _)
  unfold stripFences
  rw [h1]
  show pyStrip (pySlice (tickJson ++ (a ++ (s ++ (b ++ tick3)))) (0 + 7)
    (findFrom (tickJson ++ (a ++ (s ++ (b ++ tick3)))) tick3 (0 + 7))) = s
  have hdrop : (tickJson ++ (a ++ (s ++ (b ++ tick3)))).drop (0 + 7)
      = a ++ (s ++ (b ++ tick3)) := by
    have h7 : (0 + 7 : Nat) = tickJson.length := by rw [tickJson_length]
    rw [h7, List.drop_left]
  have hinner : subFind tick3 (a ++ (s ++ (b ++ tick3)))
      = some (s.length + b.length + a.length) := by
    have h2 : subFind tick3 (a ++ (s ++ (b ++ tick3)))
        = (subFind tick3 (s ++ (b ++ tick3))).map (· + a.length) := by
      rw [tick3_eq]
      exact subFind_append_ne '\x60' ['\x60', '\x60'] a (s ++ (b ++ tick3)) ha'
    rw [h2, subFind_bridge s b hnf hb' hb0]
    simp
  have hfind : findFrom (tickJson ++ (a ++ (s ++ (b ++ tick3)))) tick3 (0 + 7)
      = ((0 + 7 + (s.length + b.length + a.length) : Nat) : Int) := by
    unfold findFrom
    rw [hdrop, hinner]
  rw [hfind]
  have hslice : pySlice (tickJson ++ (a ++ (s ++ (b ++ tick3)))) (0 + 7)
      ((0 + 7 + (s.length + b.length + a.length) : Nat) : Int)
      = a ++ s ++ b := by
    unfold pySlice
    have hneg : ¬ (((0 + 7 + (s.length + b.length + a.length) : Nat) : Int) < 0) := by
      omega
    simp only [hneg, if_false, Int.toNat_natCast]
    have hlen : (tickJson ++ (a ++ (s ++ (b ++ tick3)))).length
        = 7 + (a.length + (s.length + (b.length + 3))) := by
      simp [List.length_append, tickJson_length]
      rfl
    rw [hlen, hdrop]
    have hmin : min (0 + 7 + (s.length + b.length + a.length))
        (7 + (a.length + (s.length + (b.length + 3))))
        = 0 + 7 + (s.length + b.length + a.length) := by
      omega
    rw [hmin]
    have hk : 0 + 7 + (s.length + b.length + a.length) - (0 + 7)
        = (a ++ s ++ b).length := by
      simp [List.length_append]
      omega
    rw [hk]
    have hassoc : a ++ (s ++ (b ++ tick3)) = (a ++ s ++ b) ++ tick3 := by
      simp [List.append_assoc]
    rw [hassoc, List.take_left]
  rw [hslice]
  exact strip2_sandwich isPySpace a s b ha hb hst

theorem stripFences_id_of_no_fence (s : List Char)
    (h : subFind tick3 s = none) : stripFences s = s := by
  have hj : subFind tickJson s = none :=
    subFind_none_of_lead tick3 tickJson s (by decide) h
  simp only [stripFences, hj, h]

theorem pySlice_neg_one (u s : List Char) :
    pySlice (u ++ s) u.length (-1) = s.take (s.length - 1) := by
  simp only [pySlice]
  have hc : ((-1 : Int) < 0) = True := by norm_num
  simp only [hc, if_true, List.length_append]
  have h1 : (((u.length + s.length : Nat) : Int) + (-1)).toNat
      = u.length + s.length - 1 := by omega
  rw [h1, List.drop_left]
  congr 1
  omega

theorem tick3_length : tick3.length = 3 := rfl

theorem stripFences_unclosed_json (s : List Char)
    (hnf : subFind tick3 s = none) :
    stripFences (tickJson ++ s) = pyStrip s.dropLast := by
  have h1 : subFind tickJson (tickJson ++ s) = some 0 :=
    subFind_of_lead _ _ (leadMatch_append_self tickJson s)
  unfold stripFences
  rw [h1]
  show pyStrip (pySlice (tickJson ++ s) (0 + 7)
    (findFrom (tickJson ++ s) tick3 (0 + 7))) = pyStrip s.dropLast
  have h7 : (0 + 7 : Nat) = tickJson.length := by rw [tickJson_length]
  have hdrop : (tickJson ++ s).drop (0 + 7) = s := by
    rw [h7, List.drop_left]
  have hfind : findFrom (tickJson ++ s) tick3 (0 + 7) = -1 := by
    unfold findFrom
    rw [hdrop, hnf]
  rw [hfind, h7, pySlice_neg_one, ← List.dropLast_eq_take]

theorem stripFences_unclosed_bare (s : List Char)
    (hnf : subFind tick3 s = none)
    (hj : subFind tickJson (tick3 ++ s) = none) :
    stripFences (tick3 ++ s) = pyStrip s.dropLast := by
  have h1 : subFind tick3 (tick3 ++ s) = some 0 :=
    subFind_of_lead _ _ (leadMatch_append_self tick3 s)
  unfold stripFences
  rw [hj, h1]
  show pyStrip (pySlice (tick3 ++ s) (0 + 3)
    (findFrom (tick3 ++ s) tick3 (0 + 3))) = pyStrip s.dropLast
  have h3 : (0 + 3 : Nat) = tick3.length := by rw [tick3_length]
  have hdrop : (tick3 ++ s).drop (0 + 3) = s := by
    rw [h3, List.drop_left]
  have hfind : findFrom (tick3 ++ s) tick3 (0 + 3) = -1 := by
    unfold findFrom
    rw [hdrop, hnf]
  rw [hfind, h3, pySlice_neg_one, ← List.dropLast_eq_take]

/-! ### Claim theorems -/

/-- Claim C1: for every JSON value `d` whose serialization `s` contains no
fence marker, wrapping `s` in a `"```json"` fenced block (opening fence,
whitespace around the payload, closing `"```"` fence on its own line)
makes `extract_json_from_response` return exactly `d`: it slices out the
content between the first fence and its closing fence and strict-JSON
parses it. -/
theorem extract_json_fenced_exact {α : Type}
    (loads : List Char → Except (List Char) α) (d : α) (s a b : List Char)
    (ha : ∀ c ∈ a, isPySpace c = true) (hb : ∀ c ∈ b, isPySpace c = true)
    (hb0 : b ≠ []) (hnf : subFind tick3 s = none) (hst : pyStrip s = s)
    (hld : loads s = .ok d) :
    extract_json_from_response loads (tickJson ++ a ++ s ++ b ++ tick3)
      = .ok d := by
  rw [extract_json_from_response,
    stripFences_fenced_json a s b ha hb hb0 hnf hst]
  simp only [jsonAttempt, hld]

/-- Concrete instance of `extract_json_fenced_exact`: the serialization of
the empty object wrapped in a newline-delimited `"```json"` fence. -/
theorem extract_json_fenced_exact_witness :
    extract_json_from_response loadsEmptyObj
      (tickJson ++ "\n".data ++ "\x7b\x7d".data ++ "\n".data ++ tick3)
      = .ok 1 :=
  extract_json_fenced_exact loadsEmptyObj 1 "\x7b\x7d".data "\n".data "\n".data
    (by decide) (by decide) (by decide) (by decide) (by decide) (by rfl)

/-- Claim C2: on input that contains no fence marker `"```"`,
fence-stripping is the identity, so `extract_json_from_response` coincides
with the plain strict JSON parse: it returns `d` whenever the input parses
to `d`. -/
theorem extract_json_no_fence {α : Type}
    (loads : List Char → Except (List Char) α) (d : α) (s : List Char)
    (hnf : subFind tick3 s = none) (hld : loads s = .ok d) :
    extract_json_from_response loads s = .ok d := by
  rw [extract_json_from_response, stripFences_id_of_no_fence s hnf]
  simp only [jsonAttempt, hld]

/-- Concrete instance of `extract_json_no_fence`: the bare serialization of
the empty object. -/
theorem extract_json_no_fence_witness :
    extract_json_from_response loadsEmptyObj "\x7b\x7d".data = .ok 1 :=
  extract_json_no_fence loadsEmptyObj 1 "\x7b\x7d".data (by decide) (by rfl)

/-- Claim C10: when an opening fence (`"```json"`, or a bare `"```"` not
preceded by `"```json"`) has no subsequent closing `"```"`, the end index
found is `-1`, so the slice taken is the text after the opening fence with
its final character removed (then stripped), and the strict JSON parse
operates on that truncated text. -/
theorem extract_json_unclosed_fence {α : Type}
    (loads : List Char → Except (List Char) α) (s : List Char)
    (hnf : subFind tick3 s = none) :
    extract_json_from_response loads (tickJson ++ s)
      = jsonAttempt loads (pyStrip s.dropLast)
    ∧ (subFind tickJson (tick3 ++ s) = none →
        extract_json_from_response loads (tick3 ++ s)
          = jsonAttempt loads (pyStrip s.dropLast)) := by
  constructor
  · rw [extract_json_from_response, stripFences_unclosed_json s hnf]
  · intro hj
    rw [extract_json_from_response, stripFences_unclosed_bare s hnf hj]

/-- Concrete instance of `extract_json_unclosed_fence`: an unclosed
`"```json"` block around the serialization of the empty object loses the
final `\x7d` and the parse fails with the handler's `ValueError` text. -/
theorem extract_json_unclosed_fence_witness :
    extract_json_from_response loadsEmptyObj (tickJson ++ "\n\x7b\x7d".data)
      = jsonAttempt loadsEmptyObj (pyStrip ("\n\x7b\x7d".data).dropLast) :=
  (extract_json_unclosed_fence loadsEmptyObj "\n\x7b\x7d".data (by decide)).1

theorem splitNl_ne_nil (a : List Char) : splitNl a ≠ [] := by
  cases a with
  | nil => simp [splitNl]
  | cons c rest =>
    simp only [splitNl]
    cases splitNl rest with
    | nil => simp
    | cons l ls =>
      by_cases h : c = '\n' <;> simp [h]

theorem splitNl_no (a : List Char) (ha : ('\n' : Char) ∉ a) :
    splitNl a = [a] := by
  induction a with
  | nil => rfl
  | cons c rest ih =>
    have hc : c ≠ '\n' := fun he => ha (he ▸ List.mem_cons_self c rest)
    have hrest : ('\n' : Char) ∉ rest := fun hm => ha (List.mem_cons_of_mem c hm)
    simp [splitNl, ih hrest, hc]

theorem splitNl_append (a r : List Char) (ha : ('\n' : Char) ∉ a) :
    splitNl (a ++ '\n' :: r) = a :: splitNl r := by
  induction a with
  | nil =>
    simp only [List.nil_append, splitNl]
    cases hx : splitNl r with
    | nil => exact absurd hx (splitNl_ne_nil r)
    | cons l ls => simp
  | cons c a' ih =>
    have hc : c ≠ '\n' := fun he => ha (he ▸ List.mem_cons_self c a')
    have ha' : ('\n' : Char) ∉ a' := fun hm => ha (List.mem_cons_of_mem c hm)
    have hstep : splitNl ((c :: a') ++ '\n' :: r)
        = match splitNl (a' ++ '\n' :: r) with
          | [] => [[]]
          | l :: ls => if c = '\n' then [] :: l :: ls else (c :: l) :: ls := rfl
    rw [hstep, ih ha']
    simp [hc]

theorem extractVal_quoted (key v : List Char) (hk : ∀ c ∈ key, c ≠ ':')
    (hv : stripQuotes v = v) (hv0 : v ≠ []) :
    extractVal (key ++ ':' :: (' ' :: ('"' :: (v ++ ['"'])))) = v := by
  have hfind : subFind [':'] (key ++ ':' :: (' ' :: ('"' :: (v ++ ['"']))))
      = some key.length := by
    have h1 := subFind_append_ne ':' [] key
      (':' :: (' ' :: ('"' :: (v ++ ['"'])))) hk
    rw [h1, subFind_of_lead [':'] _ (by simp [leadMatch, leadMatch_nil_true])]
    simp
  have htail : (key ++ ':' :: (' ' :: ('"' :: (v ++ ['"'])))).drop
      (key.length + 1) = ' ' :: ('"' :: (v ++ ['"'])) := by
    rw [List.drop_append 1]
    rfl
  rw [extractVal, splitColonTail, hfind]
  show stripQuotes (pyStrip ((key ++ ':' :: (' ' :: ('"' :: (v ++ ['"'])))).drop
    (key.length + 1))) = v
  rw [htail]
  have hstrip : pyStrip (' ' :: ('"' :: (v ++ ['"'])))
      = '"' :: (v ++ ['"']) := by
    have h2 : pyStrip (' ' :: ('"' :: (v ++ ['"'])))
        = pyStrip ('"' :: (v ++ ['"'])) :=
      strip2_cons_drop isPySpace ' ' _ (by decide)
    rw [h2]
    exact strip2_fix_cons_concat isPySpace '"' '"' v (by decide) (by decide)
  rw [hstrip]
  exact strip2_wrap isQuote '"' v (by decide) hv hv0

theorem containsSub_lower_lit (lit rest key : List Char)
    (h1 : leadMatch key (pyLower lit) = true) :
    containsSub (pyLower (lit ++ rest)) key = true := by
  rw [pyLower, List.map_append]
  exact containsSub_of_lead _ _
    (leadMatch_of_append key (List.map Char.toLower lit) _ h1)

/-- Claim C3: when the fallback parser of `generate_response_suggestions`
runs on a two-line response `Positive: "v"` / `Negative: "w"` (the shape of
the claim, with `v` and `w` free of newlines and of surrounding quotes or
whitespace), it answers status 200 with `positive_response = v` and
`negative_response = w`: for each key it takes the first matching line,
the substring after the first colon, whitespace-trimmed, with the
surrounding double quotes stripped. -/
theorem suggestions_fallback_keyed (v w : List Char)
    (hv : stripQuotes v = v) (hv0 : v ≠ []) (hvn : ('\n' : Char) ∉ v)
    (hw : stripQuotes w = w) (hw0 : w ≠ []) (hwn : ('\n' : Char) ∉ w) :
    suggestionsFallback
      ("Positive: \"".data ++ v ++ "\"\nNegative: \"".data ++ w ++ "\"".data)
      = (200, some (v, w)) := by
  have hT : ("Positive: \"".data ++ v ++ "\"\nNegative: \"".data ++ w
        ++ "\"".data)
      = ("Positive: \"".data ++ (v ++ ['"']))
        ++ '\n' :: ("Negative: \"".data ++ (w ++ ['"'])) := by
    have e1 : ("\"\nNegative: \"".data : List Char)
        = '"' :: '\n' :: "Negative: \"".data := rfl
    have e2 : ("\"".data : List Char) = ['"'] := rfl
    rw [e1, e2]
    simp [List.append_assoc]
  rw [hT]
  have hstrip : pyStrip (("Positive: \"".data ++ (v ++ ['"']))
        ++ '\n' :: ("Negative: \"".data ++ (w ++ ['"'])))
      = ("Positive: \"".data ++ (v ++ ['"']))
        ++ '\n' :: ("Negative: \"".data ++ (w ++ ['"'])) := by
    have hshape : (("Positive: \"".data ++ (v ++ ['"']))
          ++ '\n' :: ("Negative: \"".data ++ (w ++ ['"'])))
        = 'P' :: (("ositive: \"".data ++ v
            ++ ('"' :: '\n' :: ("Negative: \"".data ++ w))) ++ ['"']) := by
      have e3 : ("Positive: \"".data : List Char)
          = 'P' :: "ositive: \"".data := rfl
      rw [e3]
      simp [List.append_assoc]
    rw [hshape]
    exact strip2_fix_cons_concat isPySpace 'P' '"' _ (by decide) (by decide)
  have hnl1 : ('\n' : Char) ∉ ("Positive: \"".data ++ (v ++ ['"'])) := by
    intro hmem
    rcases List.mem_append.mp hmem with h | h
    · exact absurd h (by decide)
    · rcases List.mem_append.mp h with h2 | h2
      · exact hvn h2
      · exact absurd h2 (by decide)
  have hnl2 : ('\n' : Char) ∉ ("Negative: \"".data ++ (w ++ ['"'])) := by
    intro hmem
    rcases List.mem_append.mp hmem with h | h
    · exact absurd h (by decide)
    · rcases List.mem_append.mp h with h2 | h2
      · exact hwn h2
      · exact absurd h2 (by decide)
  have hlines : splitNl (("Positive: \"".data ++ (v ++ ['"']))
        ++ '\n' :: ("Negative: \"".data ++ (w ++ ['"'])))
      = [("Positive: \"".data ++ (v ++ ['"'])),
         ("Negative: \"".data ++ (w ++ ['"']))] := by
    rw [splitNl_append _ _ hnl1, splitNl_no _ hnl2]
  have hc1 : containsSub
      (pyLower ("Positive: \"".data ++ (v ++ ['"']))) posKey = true :=
    containsSub_lower_lit "Positive: \"".data (v ++ ['"']) posKey (by decide)
  have hc2 : containsSub
      (pyLower ("Negative: \"".data ++ (w ++ ['"']))) negKey = true :=
    containsSub_lower_lit "Negative: \"".data (w ++ ['"']) negKey (by decide)
  have hx1 : extractVal ("Positive: \"".data ++ (v ++ ['"'])) = v := by
    have hshape2 : ("Positive: \"".data ++ (v ++ ['"']))
        = "Positive".data ++ ':' :: (' ' :: ('"' :: (v ++ ['"']))) := by
      have e4 : ("Positive: \"".data : List Char)
          = "Positive".data ++ ':' :: (' ' :: ['"']) := rfl
      rw [e4]
      simp [List.append_assoc]
    rw [hshape2]
    exact extractVal_quoted "Positive".data v (by decide) hv hv0
  have hx2 : extractVal ("Negative: \"".data ++ (w ++ ['"'])) = w := by
    have hshape3 : ("Negative: \"".data ++ (w ++ ['"']))
        = "Negative".data ++ ':' :: (' ' :: ('"' :: (w ++ ['"']))) := by
      have e5 : ("Negative: \"".data : List Char)
          = "Negative".data ++ ':' :: (' ' :: ['"']) := rfl
      rw [e5]
      simp [List.append_assoc]
    rw [hshape3]
    exact extractVal_quoted "Negative".data w (by decide) hw hw0
  have hve : v.isEmpty = false := List.isEmpty_eq_false.mpr hv0
  have hwe : w.isEmpty = false := List.isEmpty_eq_false.mpr hw0
  have hloop : fallbackLoop
      [("Positive: \"".data ++ (v ++ ['"'])),
       ("Negative: \"".data ++ (w ++ ['"']))] [] [] = (v, w) := by
    have e1 : fallbackLoop
        [("Positive: \"".data ++ (v ++ ['"'])),
         ("Negative: \"".data ++ (w ++ ['"']))] [] []
        = if containsSub (pyLower ("Positive: \"".data ++ (v ++ ['"'])))
              posKey && List.isEmpty [] then
            fallbackLoop [("Negative: \"".data ++ (w ++ ['"']))]
              (extractVal ("Positive: \"".data ++ (v ++ ['"']))) []
          else if containsSub (pyLower ("Positive: \"".data ++ (v ++ ['"'])))
              negKey && List.isEmpty [] then
            fallbackLoop [("Negative: \"".data ++ (w ++ ['"']))] []
              (extractVal ("Positive: \"".data ++ (v ++ ['"'])))
          else
            fallbackLoop [("Negative: \"".data ++ (w ++ ['"']))] [] [] := rfl
    rw [e1, hc1, hx1]
    have e2 : (if (true && List.isEmpty ([] : List Char)) = true then
          fallbackLoop [("Negative: \"".data ++ (w ++ ['"']))] v []
        else if containsSub (pyLower ("Positive: \"".data ++ (v ++ ['"'])))
            negKey && List.isEmpty ([] : List Char) then
          fallbackLoop [("Negative: \"".data ++ (w ++ ['"']))] [] v
        else
          fallbackLoop [("Negative: \"".data ++ (w ++ ['"']))] [] [])
        = fallbackLoop [("Negative: \"".data ++ (w ++ ['"']))] v [] := by
      simp
    rw [e2]
    have e3 : fallbackLoop [("Negative: \"".data ++ (w ++ ['"']))] v []
        = if containsSub (pyLower ("Negative: \"".data ++ (w ++ ['"'])))
              posKey && v.isEmpty then
            fallbackLoop []
              (extractVal ("Negative: \"".data ++ (w ++ ['"']))) []
          else if containsSub (pyLower ("Negative: \"".data ++ (w ++ ['"'])))
              negKey && List.isEmpty ([] : List Char) then
            fallbackLoop [] v
              (extractVal ("Negative: \"".data ++ (w ++ ['"'])))
          else
            fallbackLoop [] v [] := rfl
    rw [e3, hve, hc2, hx2]
    simp [fallbackLoop]
  have hfin : suggestionsFallback
      (("Positive: \"".data ++ (v ++ ['"']))
        ++ '\n' :: ("Negative: \"".data ++ (w ++ ['"'])))
      = if !(v, w).1.isEmpty && !(v, w).2.isEmpty then (200, some (v, w))
        else (500, none) := by
    simp only [suggestionsFallback, hstrip, hlines, hloop]
  rw [hfin, hve, hwe]
  simp

/-- Concrete instance of `suggestions_fallback_keyed`: the example of the
claim, with values `Sure, let's go!` and `Maybe later`. -/
theorem suggestions_fallback_keyed_witness :
    suggestionsFallback ("Positive: \"".data ++ "Sure, let\x27s go!".data
        ++ "\"\nNegative: \"".data ++ "Maybe later".data ++ "\"".data)
      = (200, some ("Sure, let\x27s go!".data, "Maybe later".data)) :=
  suggestions_fallback_keyed "Sure, let\x27s go!".data "Maybe later".data
    (by decide) (by decide) (by decide) (by decide) (by decide) (by decide)

/-- Counterexample to claim C4: on the line `Positive: 10:30`, the fallback
parser extracts the whole remainder after the first colon, `10:30` — it
does not omit the part from the second colon onward (which would be `10`). -/
theorem fallback_colon_not_truncated :
    extractVal "Positive: 10:30".data = "10:30".data
    ∧ "10:30".data ≠ "10".data := by
  constructor
  · decide
  · decide

/-- Claim C4 (amended): only the first colon of a matched line is used as
the key/value separator, and the entire remainder of the line after that
first colon — including any further colons — is kept as the value (before
trimming): for every line of the form `<key>:<v1>:<v2>` where the key has
no colon, the split yields `<v1>:<v2>` whole. -/
theorem fallback_first_colon_split (key v1 v2 : List Char)
    (hk : ∀ c ∈ key, c ≠ ':') :
    splitColonTail (key ++ ':' :: (v1 ++ ':' :: v2)) = v1 ++ ':' :: v2 := by
  have hfind : subFind [':'] (key ++ ':' :: (v1 ++ ':' :: v2))
      = some key.length := by
    have h1 := subFind_append_ne ':' [] key (':' :: (v1 ++ ':' :: v2)) hk
    rw [h1, subFind_of_lead [':'] _ (by simp [leadMatch, leadMatch_nil_true])]
    simp
  rw [splitColonTail, hfind]
  show (key ++ ':' :: (v1 ++ ':' :: v2)).drop (key.length + 1) = v1 ++ ':' :: v2
  rw [List.drop_append 1]
  rfl

/-- Concrete instance of `fallback_first_colon_split`: the key `Positive`
with the colon-containing value `10:30`. -/
theorem fallback_first_colon_split_witness :
    splitColonTail ("Positive".data ++ ':' :: (" 10".data ++ ':' :: "30".data))
      = " 10".data ++ ':' :: "30".data :=
  fallback_first_colon_split "Positive".data " 10".data "30".data (by decide)

/-- Claim C5: whenever the coerced `text` or `target_language` field of a
`translate_text` request body is empty (missing, `None`, empty, or a
list for `target_language`), the handler answers status 400 with an error
body naming both required fields, and the rest of the handler — in
particular the LLM call — never runs (the result is the same for every
continuation `k`). -/
theorem translate_missing_field_400 (k : List Char × List Char → HttpResp)
    (text_raw target_raw : PyVal)
    (h : coerceTextField text_raw = [] ∨ coerceScalar target_raw = []) :
    translate_text_run k text_raw target_raw = ⟨400, translateErrBody⟩
    ∧ containsSub translateErrBody "text".data = true
    ∧ containsSub translateErrBody "target_language".data = true := by
  refine ⟨?_, by decide, by decide⟩
  rcases h with h | h <;>
    simp [translate_text_run, translate_text_validate, h]

/-- Concrete instance of `translate_missing_field_400`: a body with no
`text` value at all. -/
theorem translate_missing_field_400_witness :
    translate_text_run (fun _ => ⟨200, []⟩) PyVal.none (.str "es".data)
      = ⟨400, translateErrBody⟩
    ∧ containsSub translateErrBody "text".data = true
    ∧ containsSub translateErrBody "target_language".data = true :=
  translate_missing_field_400 (fun _ => ⟨200, []⟩) PyVal.none
    (.str "es".data) (Or.inl (by decide))

/-- Counterexample to claim C6: a list `text` value is not coerced to the
space-join of all its items — the falsy (empty) items are filtered out
first, so `["a", "", "b"]` coerces to `"a b"`, not to the plain join
`"a  b"`. -/
theorem translate_list_join_filters_falsy :
    coerceTextField (PyVal.list [.str "a".data, .str [], .str "b".data])
      ≠ List.intercalate [' ']
          ([PyVal.str "a".data, .str [], .str "b".data].map pyStr) := by
  decide

/-- Claim C6 (amended): in `translate_text`, a list value of the `text`
field is coerced — before validation and prompt building — to the
space-joined string of the `str()` of its truthy items (falsy items are
skipped); a truthy non-list value is coerced via `str()` and
whitespace-trimmed; a falsy or missing value coerces to the empty string.
The list coercion applies to the `text` field (the `target_language`
scalar coercion maps lists to the empty string). -/
theorem translate_text_coercion_cases :
    (∀ (k : List Char × List Char → HttpResp) (l : List PyVal)
        (target_raw : PyVal),
        List.intercalate [' '] ((l.filter pyTruthy).map pyStr) ≠ [] →
        coerceScalar target_raw ≠ [] →
        translate_text_run k (.list l) target_raw
          = k (List.intercalate [' '] ((l.filter pyTruthy).map pyStr),
               coerceScalar target_raw))
    ∧ (∀ s : List Char, s ≠ [] → coerceTextField (.str s) = pyStrip s)
    ∧ coerceTextField (.str []) = [] ∧ coerceTextField .none = []
    ∧ (∀ l : List PyVal, coerceScalar (.list l) = []) := by
  refine ⟨?_, ?_, by decide, by decide, ?_⟩
  · intro k l tr h1 h2
    have h1' : (List.intercalate [' ']
        ((l.filter pyTruthy).map pyStr)).isEmpty = false :=
      List.isEmpty_eq_false.mpr h1
    have h2' : (coerceScalar tr).isEmpty = false :=
      List.isEmpty_eq_false.mpr h2
    simp [translate_text_run, translate_text_validate, coerceTextField,
      h1', h2']
  · intro s hs
    have h3 : s.isEmpty = false := List.isEmpty_eq_false.mpr hs
    simp [coerceTextField, coerceScalar, pyTruthy, PyVal.isList, h3, pyStr]
  · intro l
    simp [coerceScalar, PyVal.isList]

/-- Concrete instance of `translate_text_coercion_cases`: the list
`["a", "", "b"]` flows into the continuation as `"a b"`. -/
theorem translate_text_coercion_cases_witness :
    translate_text_run (fun p => ⟨200, p.1⟩)
      (.list [.str "a".data, .str [], .str "b".data]) (.str "es".data)
      = ⟨200, "a b".data⟩ := by
  rw [translate_text_coercion_cases.1 (fun p => ⟨200, p.1⟩)
    [.str "a".data, .str [], .str "b".data] (.str "es".data)
    (by decide) (by decide)]
  decide

theorem send_message_notification_token (env : NotifEnv)
    (rid sn mc cid mid : List Char) (g : Bool) (tok : List Char)
    (h : env.userDoc rid = some (some tok)) (htok : tok.isEmpty = false) :
    send_message_notification env rid sn mc cid mid g
      = match env.send
          ⟨"Wutzup from ".data ++ sn, notifPreview mc, tok, cid, mid⟩ with
        | .ok _ => (true,
            [⟨"Wutzup from ".data ++ sn, notifPreview mc, tok, cid, mid⟩])
        | .error _ => (false,
            [⟨"Wutzup from ".data ++ sn, notifPreview mc, tok, cid, mid⟩]) := by
  simp only [send_message_notification, h, htok, Bool.false_eq_true,
    if_false]

/-- Claim C7: `send_message_notification` returns `false` with no push-send
call when the recipient document does not exist or stores no (or an empty)
push token; a provider error during the send is caught and yields `false`
instead of propagating; and the result is `true` exactly when the send
call was reached and succeeded. -/
theorem send_notification_soft_fail (env : NotifEnv)
    (rid sn mc cid mid : List Char) (g : Bool) :
    (env.userDoc rid = none →
      send_message_notification env rid sn mc cid mid g = (false, []))
    ∧ (env.userDoc rid = some none →
      send_message_notification env rid sn mc cid mid g = (false, []))
    ∧ (∀ tok, env.userDoc rid = some (some tok) → tok = [] →
      send_message_notification env rid sn mc cid mid g = (false, []))
    ∧ (∀ tok e, env.userDoc rid = some (some tok) → tok ≠ [] →
      env.send ⟨"Wutzup from ".data ++ sn, notifPreview mc, tok, cid, mid⟩
        = .error e →
      (send_message_notification env rid sn mc cid mid g).1 = false)
    ∧ ((send_message_notification env rid sn mc cid mid g).1 = true ↔
      ∃ tok r, env.userDoc rid = some (some tok) ∧ tok ≠ []
        ∧ env.send ⟨"Wutzup from ".data ++ sn, notifPreview mc, tok, cid, mid⟩
            = .ok r) := by
  refine ⟨?_, ?_, ?_, ?_, ?_⟩
  · intro h
    simp only [send_message_notification, h]
  · intro h
    simp only [send_message_notification, h]
  · intro tok h htok
    subst htok
    simp only [send_message_notification, h, List.isEmpty_nil, if_true]
  · intro tok e h htok hsend
    have he : tok.isEmpty = false := List.isEmpty_eq_false.mpr htok
    rw [send_message_notification_token env rid sn mc cid mid g tok h he,
      hsend]
  · constructor
    · intro h
      cases hdoc : env.userDoc rid with
      | none => simp [send_message_notification, hdoc] at h
      | some doc =>
        cases doc with
        | none =>
          simp [send_message_notification, hdoc] at h
        | some tok =>
          by_cases htok : tok = []
          · subst htok
            simp [send_message_notification, hdoc] at h
          · have he : tok.isEmpty = false := List.isEmpty_eq_false.mpr htok
            rw [send_message_notification_token env rid sn mc cid mid g
              tok hdoc he] at h
            cases hsend : env.send
                ⟨"Wutzup from ".data ++ sn, notifPreview mc, tok, cid, mid⟩ with
            | error e => rw [hsend] at h; simp at h
            | ok r => exact ⟨tok, r, rfl, htok, hsend⟩
    · rintro ⟨tok, r, hdoc, htok, hsend⟩
      have he : tok.isEmpty = false := List.isEmpty_eq_false.mpr htok
      rw [send_message_notification_token env rid sn mc cid mid g tok
        hdoc he, hsend]

/-- Concrete instance of `send_notification_soft_fail`: a recipient with no
user document yields `false` and no send call. -/
theorem send_notification_soft_fail_witness :
    send_message_notification notifEnvNoUser "u1".data "Alice".data
      "hi".data "c1".data "m1".data false = (false, []) :=
  (send_notification_soft_fail notifEnvNoUser "u1".data "Alice".data
    "hi".data "c1".data "m1".data false).1 (by rfl)

/-- Claim C8: `scrape_webpage` is total and soft-failing — a network error,
an HTTP error status (`raise_for_status`) or a parse failure each yield the
empty string — and the caller `conduct_research` treats an empty scrape as
unusable, skipping that result instead of failing. -/
theorem scrape_webpage_soft_fail (env : WebEnv) (url : List Char)
    (timeout maxLen : Nat) :
    (∀ e, env.fetch url timeout = .error e →
      scrape_webpage env url timeout = [])
    ∧ (∀ resp, env.fetch url timeout = .ok resp → 400 ≤ resp.status →
      scrape_webpage env url timeout = [])
    ∧ (∀ resp e, env.fetch url timeout = .ok resp → ¬ 400 ≤ resp.status →
      env.soupText resp.text = .error e →
      scrape_webpage env url timeout = [])
    ∧ (∀ (r : SearchResult) (rest : List SearchResult),
      scrape_webpage env r.url timeout = [] →
      gatherLoop env maxLen timeout (r :: rest)
        = gatherLoop env maxLen timeout rest) := by
  refine ⟨?_, ?_, ?_, ?_⟩
  · intro e h
    simp only [scrape_webpage, h]
  · intro resp h hs
    simp only [scrape_webpage, h, if_pos hs]
  · intro resp e h hs hsoup
    simp only [scrape_webpage, h, if_neg hs, hsoup]
  · intro r rest h
    have he : (scrape_webpage env r.url timeout).isEmpty = true := by
      rw [h]; rfl
    simp only [gatherLoop, he, if_true]

/-- Concrete instance of `scrape_webpage_soft_fail`: an unreachable URL
returns the empty string. -/
theorem scrape_webpage_soft_fail_witness :
    scrape_webpage webEnvUnreachable "https://x.invalid/".data 10 = [] :=
  (scrape_webpage_soft_fail webEnvUnreachable "https://x.invalid/".data
    10 1000).1 "ConnectionError".data (by rfl)

/-- Counterexample to claim C9: `scrape_webpage` itself does not cap the
text it returns at the configured maximum scraped-content length — with
the maximum configured as 2, a page whose cleaned text is the
five-character `hello` is returned whole. -/
theorem scrape_webpage_uncapped :
    ¬ ((scrape_webpage webEnvHello "https://a.example/".data 10).length
        ≤ 2) := by
  decide

/-- Claim C9 (amended): the cap is applied by the caller: every item that
`conduct_research` accumulates from scraping carries content truncated to
`Config.MAX_SCRAPED_CONTENT_LENGTH` characters, so its length is at most
that configured maximum. -/
theorem gatherScraped_content_le (env : WebEnv) (maxLen timeout : Nat)
    (results : List SearchResult) (item : ScrapedItem)
    (h : item ∈ gatherScraped env maxLen timeout results) :
    item.content.length ≤ maxLen := by
  rw [gatherScraped] at h
  generalize results.take 3 = rs at h
  induction rs with
  | nil => simp [gatherLoop] at h
  | cons r rest ih =>
    by_cases hc : (scrape_webpage env r.url timeout).isEmpty = true
    · rw [gatherLoop, if_pos hc] at h
      exact ih h
    · have hc' : (scrape_webpage env r.url timeout).isEmpty = false := by
        cases hx : (scrape_webpage env r.url timeout).isEmpty
        · rfl
        · exact absurd hx hc
      rw [gatherLoop, hc'] at h
      simp only [Bool.false_eq_true, if_false] at h
      rcases List.mem_cons.mp h with h1 | h1
      · subst h1
        simp only [List.length_take]
        exact Nat.min_le_left _ _
      · exact ih h1

/-- Concrete instance of `gatherScraped_content_le`: with the maximum
configured as 2, the item gathered from the `hello` page carries the
truncated content `he` of length at most 2. -/
theorem gatherScraped_content_le_witness :
    (ScrapedItem.mk "t".data "u".data "he".data).content.length ≤ 2 :=
  gatherScraped_content_le webEnvHello 2 10
    [⟨"t".data, "u".data, "s".data⟩]
    ⟨"t".data, "u".data, "he".data⟩ (by decide)
